import Mathlib

/-!
Shallow embedding of the `st77xx` display driver (src/components/st77xx) as it
is compiled for the default configuration of the repository: the ST7796S panel
model selected by the fallback in `st77xx.h` (no Kconfig model symbol), i.e.
`ST77XX_WIDTH = 480`, `ST77XX_HEIGHT = 320`, zero panel offsets, byte swapping
enabled (`ST77XX_SWAP_BYTES_DMA = 1`) and a 32 KiB DMA transfer buffer.

Pixel surfaces are modelled as total functions from coordinates to the stored
16-bit colour value (represented as `Nat`); byte payloads are `List Nat`; the
SPI bus is modelled by the list of bus events a call emits.  Fallible
collaborators (the allocator, the filesystem) are modelled as explicit oracle
arguments.
-/

/- ═══════════ Configuration constants (st77xx.h, ST7796S branch) ═══════════ -/

def ST77XX_WIDTH : Nat := 480

def ST77XX_HEIGHT : Nat := 320

def ST77XX_X_OFFSET : Nat := 0

def ST77XX_Y_OFFSET : Nat := 0

/-- `ST77XX_FB_SIZE = WIDTH * HEIGHT * sizeof(uint16_t)` (bytes). -/
def ST77XX_FB_SIZE : Nat := ST77XX_WIDTH * ST77XX_HEIGHT * 2

def ST77XX_STRIPE_HEIGHT : Nat := 27

/-- `ST77XX_STRIPE_COUNT = ST77XX_HEIGHT / ST77XX_STRIPE_HEIGHT` — C integer
(floor) division, as in the header. -/
def ST77XX_STRIPE_COUNT : Nat := ST77XX_HEIGHT / ST77XX_STRIPE_HEIGHT

/-- `ST77XX_STRIPE_SIZE = WIDTH * STRIPE_HEIGHT * sizeof(uint16_t)` (bytes). -/
def ST77XX_STRIPE_SIZE : Nat := ST77XX_WIDTH * ST77XX_STRIPE_HEIGHT * 2

def ST77XX_DMA_BUFFER_SIZE : Nat := 32 * 1024

def ST77XX_FONT_WIDTH : Nat := 8

def ST77XX_FONT_HEIGHT : Nat := 12

def ST77XX_FONT_CHARS : Nat := 108

/- ═══════════ Transfer channel: `send_data_dma` (st77xx.c:788-815) ═════════ -/

/-- The chunk lengths produced by the `while (size > 0)` loop of
`send_data_dma`: each iteration takes `chunk = min(dma_buffer_size, size)`
bytes.  `C` is the transfer-buffer capacity (`dma_buffer_size`).  The `C = 0`
guard is only for termination; in the driver the capacity is the constant
`ST77XX_DMA_BUFFER_SIZE` whenever the buffer exists. -/
def chunkSizes (C L : Nat) : List Nat :=
  if h : L = 0 ∨ C = 0 then [] else min C L :: chunkSizes C (L - min C L)
termination_by L
decreasing_by
  push_neg at h
  omega

/-- The successive windows of `C` bytes the `send_data_dma` loop copies out of
the payload (`data += chunk; size -= chunk;`).  The `C = 0` guard is only for
termination; the driver's capacity is a positive constant. -/
def chunksOf (C : Nat) : List α → List (List α)
  | [] => []
  | a :: t => if _h : C = 0 then [] else (a :: t).take C :: chunksOf C ((a :: t).drop C)
termination_by l => l.length
decreasing_by simp; omega

/-- The per-chunk byte transform of `send_data_dma` under
`ST77XX_SWAP_BYTES_DMA`: the `for (i; i + 1 < chunk; i += 2)` loop stores each
adjacent pair reversed, and `if (chunk % 2)` copies a final odd byte verbatim. -/
def pairSwap : List α → List α
  | a :: b :: rest => b :: a :: pairSwap rest
  | l => l

/-- `send_data_dma(data, size)`, modelled as the list of byte chunks handed to
`spi_device_polling_transmit` (one list entry per bus transaction).
`dmaAlloc` is whether the transfer buffer was allocated at setup
(`dma_buffer != NULL`); when it is `false` the function returns without any
bus transfer.  Byte swapping is active (`ST77XX_SWAP_BYTES_DMA = 1`). -/
def send_data_dma (dmaAlloc : Bool) (C : Nat) (data : List Nat) : List (List Nat) :=
  if dmaAlloc then (chunksOf C data).map pairSwap else []

/- ═══════════ Transfer-channel lemmas ═════════ -/

theorem pairSwap_length (l : List α) : (pairSwap l).length = l.length := by
  induction l using pairSwap.induct with
  | case1 a b rest ih => simp [pairSwap, ih]
  | case2 l h1 =>
    cases l with
    | nil => rfl
    | cons a t =>
      cases t with
      | nil => rfl
      | cons b r => exact absurd rfl (h1 a b r)

theorem pairSwap_append_of_even (xs ys : List α) (h : Even xs.length) :
    pairSwap (xs ++ ys) = pairSwap xs ++ pairSwap ys := by
  induction xs using pairSwap.induct with
  | case1 a b rest ih =>
    simp only [List.length_cons] at h
    have hrest : Even rest.length := by
      rcases h with ⟨k, hk⟩
      exact ⟨k - 1, by omega⟩
    simp [pairSwap, ih hrest]
  | case2 l h1 =>
    cases l with
    | nil => simp [pairSwap]
    | cons a t =>
      cases t with
      | nil => simp at h
      | cons b r => exact absurd rfl (h1 a b r)

theorem chunksOf_flatten (C : Nat) (hC : 0 < C) (l : List α) :
    (chunksOf C l).flatten = l := by
  induction l using chunksOf.induct C with
  | case1 => simp [chunksOf]
  | case2 a t h => omega
  | case3 a t h ih =>
    rw [chunksOf, dif_neg h]
    simp only [List.flatten_cons, ih]
    exact List.take_append_drop C (a :: t)

theorem chunksOf_mem_length_le (C : Nat) (l : List α) (c : List α)
    (hc : c ∈ chunksOf C l) : c.length ≤ C := by
  induction l using chunksOf.induct C with
  | case1 => simp [chunksOf] at hc
  | case2 a t h =>
    rw [chunksOf, dif_pos h] at hc
    simp at hc
  | case3 a t h ih =>
    rw [chunksOf, dif_neg h] at hc
    rcases List.mem_cons.mp hc with h1 | h1
    · subst h1; exact List.length_take_le C (a :: t)
    · exact ih h1

theorem chunksOf_length (C : Nat) (hC : 0 < C) (l : List α) :
    (chunksOf C l).length = (l.length + C - 1) / C := by
  induction l using chunksOf.induct C with
  | case1 =>
    have h0 : chunksOf C ([] : List α) = [] := by simp [chunksOf]
    rw [h0]
    simp only [List.length_nil]
    rw [Nat.div_eq_of_lt (show 0 + C - 1 < C by omega)]
  | case2 a t h => omega
  | case3 a t h ih =>
    have hstep : chunksOf C (a :: t) = (a :: t).take C :: chunksOf C ((a :: t).drop C) := by
      rw [chunksOf, dif_neg h]
    rw [hstep]
    simp only [List.length_cons, ih, List.length_drop]
    rcases Nat.lt_or_ge (t.length + 1) C with hlt | hge
    · rw [Nat.div_eq_of_lt (show t.length + 1 - C + C - 1 < C by omega)]
      rw [Nat.div_eq_of_lt_le (show 1 * C ≤ t.length + 1 + C - 1 by omega)
        (show t.length + 1 + C - 1 < (1 + 1) * C by omega)]
    · have h2 : t.length + 1 - C + C - 1 = t.length := by omega
      have h3 : t.length + 1 + C - 1 = t.length + C := by omega
      rw [h2, h3, Nat.add_div_right _ hC]

theorem send_data_dma_map_length (C : Nat) (data : List Nat) :
    (send_data_dma true C data).map List.length = (chunksOf C data).map List.length := by
  simp only [send_data_dma, if_pos, List.map_map]
  apply List.map_congr_left
  intro c _
  exact pairSwap_length c

/-- Claim C2.  Transfer-channel chunking: with the transfer buffer allocated
with capacity `C > 0`, `send_data_dma` issues exactly `ceil(L/C)` chunk
transfers (`(L + C - 1) / C` in natural division), the chunk lengths sum
exactly to `L = data.length`, and each chunk is at most `C` bytes; with the
transfer buffer unallocated it performs no bus transfer at all. -/
theorem send_data_dma_chunking (C : Nat) (hC : 0 < C) (data : List Nat) :
    (send_data_dma true C data).length = (data.length + C - 1) / C ∧
    ((send_data_dma true C data).map List.length).sum = data.length ∧
    (∀ c ∈ send_data_dma true C data, c.length ≤ C) ∧
    send_data_dma false C data = [] := by
  refine ⟨?_, ?_, ?_, rfl⟩
  · simp only [send_data_dma, if_pos, List.length_map]
    exact chunksOf_length C hC data
  · rw [send_data_dma_map_length C data]
    rw [← List.length_flatten, chunksOf_flatten C hC data]
  · intro c hc
    simp only [send_data_dma, if_pos, List.mem_map] at hc
    obtain ⟨c0, hc0, hpc⟩ := hc
    rw [← hpc, pairSwap_length]
    exact chunksOf_mem_length_le C data c0 hc0

theorem send_data_dma_chunking_witness :
    0 < 4 ∧
    ((send_data_dma true 4 [1, 2, 3, 4, 5, 6, 7, 8, 9, 10]).length = (10 + 4 - 1) / 4 ∧
      ((send_data_dma true 4 [1, 2, 3, 4, 5, 6, 7, 8, 9, 10]).map List.length).sum = 10 ∧
      (∀ c ∈ send_data_dma true 4 [1, 2, 3, 4, 5, 6, 7, 8, 9, 10], c.length ≤ 4) ∧
      send_data_dma false 4 [1, 2, 3, 4, 5, 6, 7, 8, 9, 10] = []) := by
  have h := send_data_dma_chunking 4 (by decide) [1, 2, 3, 4, 5, 6, 7, 8, 9, 10]
  simpa using h

/-- Claim C3.  Byte-swap correctness across chunk boundaries: with swap
enabled and an even transfer-buffer capacity `C > 0` (the driver's capacity is
`32 * 1024`), the concatenation of all transmitted chunk bytes equals the
input payload with each adjacent 2-byte pair reversed; in particular for a
payload of odd length (`l ++ [a]` with `l` of even length), the final
trailing byte `a` is transmitted unchanged, after the pairwise-swapped even
part.  Pair alignment is preserved at every chunk boundary because every full
chunk has the even length `C`. -/
theorem send_data_dma_swap (C : Nat) (hC : 0 < C) (hE : Even C) (data : List Nat) :
    Even ST77XX_DMA_BUFFER_SIZE ∧
    (send_data_dma true C data).flatten = pairSwap data ∧
    (∀ (l : List Nat) (a : Nat), Even l.length →
      (send_data_dma true C (l ++ [a])).flatten = pairSwap l ++ [a]) := by
  refine ⟨⟨16 * 1024, by decide⟩, ?_⟩
  have main : ∀ d : List Nat, (send_data_dma true C d).flatten = pairSwap d := by
    intro d
    induction d using chunksOf.induct C with
    | case1 => simp [send_data_dma, chunksOf, pairSwap]
    | case2 a t h => omega
    | case3 a t h ih =>
      simp only [send_data_dma, if_pos] at ih ⊢
      have hstep : chunksOf C (a :: t) = (a :: t).take C :: chunksOf C ((a :: t).drop C) := by
        rw [chunksOf, dif_neg h]
      rw [hstep]
      simp only [List.map_cons, List.flatten_cons, ih]
      rcases Nat.lt_or_ge ((a :: t).length) C with hlt | hge
      · rw [List.take_of_length_le (by omega), List.drop_eq_nil_of_le (by omega)]
        simp [chunksOf, show pairSwap ([] : List Nat) = [] from rfl]
      · conv_rhs => rw [← List.take_append_drop C (a :: t)]
        rw [pairSwap_append_of_even _ _ (by rwa [List.length_take_of_le hge])]
  refine ⟨main data, ?_⟩
  intro l a hl
  rw [main (l ++ [a]), pairSwap_append_of_even l [a] hl]
  rfl

theorem send_data_dma_swap_witness :
    0 < 4 ∧ Even 4 ∧
    (Even ST77XX_DMA_BUFFER_SIZE ∧
      (send_data_dma true 4 [1, 2, 3, 4, 5]).flatten = pairSwap [1, 2, 3, 4, 5] ∧
      (∀ (l : List Nat) (a : Nat), Even l.length →
        (send_data_dma true 4 (l ++ [a])).flatten = pairSwap l ++ [a])) :=
  ⟨by decide, by decide, send_data_dma_swap 4 (by decide) (by decide) [1, 2, 3, 4, 5]⟩

/- ═══════════ Window addressing and the window cache (st77xx.c:260-329) ════ -/

/-- A panel addressing rectangle `(x0, y0, x1, y1)`. -/
structure Rect where
  x0 : Nat
  y0 : Nat
  x1 : Nat
  y1 : Nat
deriving DecidableEq

/-- Bus events observable at the SPI collaborator.  `winSet r` stands for the
CASET/RASET addressing pair (each coordinate sent plus the panel offsets,
which are `0` for the ST7796S) followed by the `CMD_RAMWR` that ends
`st77xx_set_window`; `ramwr` is a bare `CMD_RAMWR`; `data n` is one
`send_data_dma` bus transaction of `n` payload bytes. -/
inductive Ev where
  | winSet (r : Rect)
  | ramwr
  | data (n : Nat)
deriving DecidableEq

/-- The rectangle normalization at the top of `st77xx_set_window`: swap the
coordinates of an inverted rectangle, then clamp the far corner to the panel
bounds. -/
def normWindow (x0 y0 x1 y1 : Nat) : Rect :=
  let p := if x1 < x0 then (x1, x0) else (x0, x1)
  let q := if y1 < y0 then (y1, y0) else (y0, y1)
  let x1c := if ST77XX_WIDTH ≤ p.2 then ST77XX_WIDTH - 1 else p.2
  let y1c := if ST77XX_HEIGHT ≤ q.2 then ST77XX_HEIGHT - 1 else q.2
  ⟨p.1, q.1, x1c, y1c⟩

/-- The driver state relevant to the window cache: `windowSet` is the static
`window_set` boolean of st77xx.c; `panelWindow` is the panel's currently
addressed rectangle (the panel remembers the last CASET/RASET it received). -/
structure WinState where
  windowSet : Bool
  panelWindow : Rect
deriving DecidableEq

/-- The full-panel rectangle `(0, 0, WIDTH-1, HEIGHT-1)`. -/
def fullWindow : Rect := ⟨0, 0, ST77XX_WIDTH - 1, ST77XX_HEIGHT - 1⟩

/-- The `send_data_dma` bus transactions for a payload of `L` bytes, keeping
only each chunk's byte count (the driver's capacity is
`ST77XX_DMA_BUFFER_SIZE`); no transaction happens when the transfer buffer is
unallocated or `L = 0`. -/
def dmaEvents (dmaAlloc : Bool) (L : Nat) : List Ev :=
  if dmaAlloc then (chunkSizes ST77XX_DMA_BUFFER_SIZE L).map Ev.data else []

/-- `st77xx_set_window(x0, y0, x1, y1)` (st77xx.c:313-329): normalizes the
rectangle, addresses it and issues `CMD_RAMWR`.  Faithfully to the source, it
does NOT touch the `window_set` boolean. -/
def st77xx_set_window (s : WinState) (x0 y0 x1 y1 : Nat) : WinState × List Ev :=
  let r := normWindow x0 y0 x1 y1
  ({ s with panelWindow := r }, [Ev.winSet r])

/-- `st77xx_flush(frame_buffer)` (st77xx.c:260-271) for a non-null frame
buffer: if `window_set` is false, address the full panel through
`st77xx_set_window` and set the flag; otherwise only reissue `CMD_RAMWR`;
then stream `ST77XX_FB_SIZE` bytes through `send_data_dma`. -/
def st77xx_flush (dmaAlloc : Bool) (s : WinState) : WinState × List Ev :=
  if s.windowSet then
    (s, Ev.ramwr :: dmaEvents dmaAlloc ST77XX_FB_SIZE)
  else
    let p := st77xx_set_window s 0 0 (ST77XX_WIDTH - 1) (ST77XX_HEIGHT - 1)
    ({ p.1 with windowSet := true }, p.2 ++ dmaEvents dmaAlloc ST77XX_FB_SIZE)

/-- `st77xx_set_orientation` (st77xx.c:279-305): sends `CMD_MADCTL` with the
model-specific value and clears the `window_set` flag (`window_set = false`).
Only the cache effect is modelled; the MADCTL byte does not interact with the
window cache. -/
def st77xx_set_orientation (s : WinState) : WinState :=
  { s with windowSet := false }

/-- Is any event of the list a CASET/RASET window addressing? -/
def evHasWinSet (l : List Ev) : Bool :=
  l.any fun e => match e with
    | Ev.winSet _ => true
    | _ => false

/- ═══════════ Stripe renderer (st77xx.c:379-464) ════ -/

/-- Stripe-mode driver state: `alloc` is whether `stripe_buffer` is non-null,
`current` is the static `current_stripe` counter. -/
structure StripeState where
  alloc : Bool
  current : Nat
deriving DecidableEq

/-- `st77xx_init_stripe_mode` (st77xx.c:379-391): a no-op when the stripe
buffer already exists; otherwise attempts the allocation (`allocOk` is the
allocator outcome) and on success resets `current_stripe` to 0.  No
divisibility check of `ST77XX_HEIGHT` by `ST77XX_STRIPE_HEIGHT` is performed
anywhere in the function. -/
def st77xx_init_stripe_mode (allocOk : Bool) (s : StripeState) : StripeState :=
  if s.alloc then s
  else if allocOk then ⟨true, 0⟩ else s

/-- `st77xx_stripe_begin_frame` (st77xx.c:434-436). -/
def st77xx_stripe_begin_frame (s : StripeState) : StripeState :=
  { s with current := 0 }

/-- `st77xx_stripe_flush_next` (st77xx.c:438-456): returns the updated
window-cache state, the updated stripe state, the C return value, and the
emitted bus events.  With a null stripe buffer or `current_stripe >=
ST77XX_STRIPE_COUNT` it returns `-1` and does nothing; otherwise it addresses
the stripe's row band via `st77xx_set_window`, issues another `CMD_RAMWR`,
streams `ST77XX_STRIPE_SIZE` bytes of the stripe surface, increments
`current_stripe`, and returns the new index, or `-1` once the frame is
complete. -/
def st77xx_stripe_flush_next (dmaAlloc : Bool) (w : WinState) (s : StripeState) :
    (WinState × StripeState) × Int × List Ev :=
  if s.alloc = false ∨ ST77XX_STRIPE_COUNT ≤ s.current then ((w, s), -1, [])
  else
    let y0 := s.current * ST77XX_STRIPE_HEIGHT
    let y1 := y0 + ST77XX_STRIPE_HEIGHT - 1
    let p := st77xx_set_window w 0 y0 (ST77XX_WIDTH - 1) y1
    let s' : StripeState := { s with current := s.current + 1 }
    ((p.1, s'),
      (if s'.current < ST77XX_STRIPE_COUNT then ((s'.current : Nat) : Int) else -1),
      p.2 ++ [Ev.ramwr] ++ dmaEvents dmaAlloc ST77XX_STRIPE_SIZE)

/-- Iterated `st77xx_stripe_flush_next` calls (return values and bus events
discarded), to express a whole frame of successive calls. -/
def stripeFlushIter (d : Bool) : WinState × StripeState → Nat → WinState × StripeState
  | ws, 0 => ws
  | ws, n + 1 => stripeFlushIter d (st77xx_stripe_flush_next d ws.1 ws.2).1 n

/-- The expected addressing band of stripe `i`: rows
`[i*stripe_height, i*stripe_height + stripe_height - 1]`, full panel width. -/
def stripeBand (i : Nat) : Rect :=
  ⟨0, i * ST77XX_STRIPE_HEIGHT, ST77XX_WIDTH - 1,
    i * ST77XX_STRIPE_HEIGHT + ST77XX_STRIPE_HEIGHT - 1⟩

/- ═══════════ Stripe-sequence lemmas and Claim C1 ════ -/

theorem chunkSizes_single (C L : Nat) (h0 : 0 < L) (hLC : L ≤ C) :
    chunkSizes C L = [L] := by
  rw [chunkSizes, dif_neg (by omega)]
  rw [Nat.min_eq_right hLC]
  rw [Nat.sub_self]
  rw [chunkSizes, dif_pos (Or.inl rfl)]

theorem dmaEvents_stripe : dmaEvents true ST77XX_STRIPE_SIZE = [Ev.data ST77XX_STRIPE_SIZE] := by
  have h1 : dmaEvents true ST77XX_STRIPE_SIZE =
      (chunkSizes ST77XX_DMA_BUFFER_SIZE ST77XX_STRIPE_SIZE).map Ev.data := rfl
  rw [h1]
  rw [chunkSizes_single ST77XX_DMA_BUFFER_SIZE ST77XX_STRIPE_SIZE (by decide) (by decide)]
  rfl

theorem stripe_flush_next_done (d : Bool) (w : WinState) (s : StripeState)
    (h : ST77XX_STRIPE_COUNT ≤ s.current) :
    st77xx_stripe_flush_next d w s = ((w, s), -1, []) := by
  rw [st77xx_stripe_flush_next, if_pos (Or.inr h)]

theorem stripe_band_norm (c : Nat) (hc : c < ST77XX_STRIPE_COUNT) :
    normWindow 0 (c * ST77XX_STRIPE_HEIGHT) (ST77XX_WIDTH - 1)
      (c * ST77XX_STRIPE_HEIGHT + ST77XX_STRIPE_HEIGHT - 1) = stripeBand c := by
  have hc11 : c < 11 := hc
  rw [normWindow, stripeBand]
  have hH : ST77XX_STRIPE_HEIGHT = 27 := rfl
  have hW : ST77XX_WIDTH = 480 := rfl
  have hHt : ST77XX_HEIGHT = 320 := rfl
  rw [hH, hW, hHt]
  rw [if_neg (by omega), if_neg (by omega), if_neg (by omega), if_neg (by omega)]


theorem stripe_flush_next_active (w : WinState) (c : Nat) (hc : c < ST77XX_STRIPE_COUNT) :
    st77xx_stripe_flush_next true w ⟨true, c⟩ =
      ((⟨w.windowSet, stripeBand c⟩, ⟨true, c + 1⟩),
        (if c + 1 < ST77XX_STRIPE_COUNT then ((c + 1 : Nat) : Int) else -1),
        [Ev.winSet (stripeBand c), Ev.ramwr, Ev.data ST77XX_STRIPE_SIZE]) := by
  have hcond : ¬((⟨true, c⟩ : StripeState).alloc = false ∨
      ST77XX_STRIPE_COUNT ≤ (⟨true, c⟩ : StripeState).current) := by
    rintro (h1 | h1)
    · exact Bool.noConfusion h1
    · change ST77XX_STRIPE_COUNT ≤ c at h1
      omega
  rw [st77xx_stripe_flush_next, if_neg hcond]
  simp only [st77xx_set_window]
  rw [stripe_band_norm c hc, dmaEvents_stripe]
  rfl

theorem stripeFlushIter_state (n : Nat) : ∀ (w : WinState) (c : Nat),
    c ≤ ST77XX_STRIPE_COUNT →
    (stripeFlushIter true (w, ⟨true, c⟩) n).2 =
      ⟨true, if c + n ≤ ST77XX_STRIPE_COUNT then c + n else ST77XX_STRIPE_COUNT⟩ := by
  induction n with
  | zero =>
    intro w c hc
    rw [stripeFlushIter, if_pos (show c + 0 ≤ ST77XX_STRIPE_COUNT by omega)]
    rfl
  | succ n ih =>
    intro w c hc
    rw [stripeFlushIter]
    rcases Nat.lt_or_ge c ST77XX_STRIPE_COUNT with h | h
    · simp only [stripe_flush_next_active w c h]
      rw [ih (⟨w.windowSet, stripeBand c⟩ : WinState) (c + 1) (by omega)]
      simp only [StripeState.mk.injEq, true_and]
      split_ifs <;> omega
    · simp only [stripe_flush_next_done true w ⟨true, c⟩ h]
      rw [ih w c hc]
      simp only [StripeState.mk.injEq, true_and]
      split_ifs <;> omega

/-- Claim C1.  Stripe renderer frame sequence: with the stripe buffer and the
transfer buffer allocated, after `st77xx_stripe_begin_frame` the `i`-th call
(0-based) of `st77xx_stripe_flush_next` addresses exactly the row band
`[i*stripe_height, i*stripe_height + stripe_height - 1]` across the full
panel width, then transfers exactly `ST77XX_STRIPE_SIZE =
width*stripe_height*2` bytes of the stripe surface in one chunk; the call for
stripe `i` returns `i+1` when `i+1 < stripe_count` and the completion
sentinel `-1` otherwise, and every call with `stripe_count ≤ i` (without an
intervening `begin_frame`) returns `-1` with no bus traffic and no state
change. -/
theorem stripe_frame_sequence (w0 : WinState) (s0 : StripeState) (h0 : s0.alloc = true)
    (i : Nat) (w : WinState) (s : StripeState)
    (hws : stripeFlushIter true (w0, st77xx_stripe_begin_frame s0) i = (w, s)) :
    s.alloc = true ∧
    (i < ST77XX_STRIPE_COUNT →
      s.current = i ∧
      st77xx_stripe_flush_next true w s =
        ((⟨w.windowSet, stripeBand i⟩, ⟨true, i + 1⟩),
          (if i + 1 < ST77XX_STRIPE_COUNT then ((i + 1 : Nat) : Int) else -1),
          [Ev.winSet (stripeBand i), Ev.ramwr, Ev.data ST77XX_STRIPE_SIZE])) ∧
    (ST77XX_STRIPE_COUNT ≤ i →
      st77xx_stripe_flush_next true w s = ((w, s), -1, [])) := by
  obtain ⟨al, cur⟩ := s0
  simp only at h0
  subst h0
  have hbegin : st77xx_stripe_begin_frame ⟨true, cur⟩ = (⟨true, 0⟩ : StripeState) := rfl
  rw [hbegin] at hws
  have hstate := stripeFlushIter_state i w0 0 (by omega)
  rw [hws] at hstate
  have hs : s = ⟨true, if 0 + i ≤ ST77XX_STRIPE_COUNT then 0 + i else ST77XX_STRIPE_COUNT⟩ :=
    hstate
  refine ⟨by rw [hs], ?_, ?_⟩
  · intro hi
    rw [hs, if_pos (by omega), Nat.zero_add]
    exact ⟨rfl, stripe_flush_next_active w i hi⟩
  · intro hi
    rcases Nat.lt_or_ge i ST77XX_STRIPE_COUNT with h | h
    · omega
    · have hcur : s = ⟨true, if ST77XX_STRIPE_COUNT ≤ i then ST77XX_STRIPE_COUNT else 0 + i⟩ := by
        rw [hs]
        split_ifs <;> simp_all <;> omega
      rw [hcur, if_pos hi]
      exact stripe_flush_next_done true w ⟨true, ST77XX_STRIPE_COUNT⟩ (le_refl _)

theorem stripe_frame_sequence_witness :
    (⟨true, 7⟩ : StripeState).alloc = true ∧
    stripeFlushIter true ((⟨false, fullWindow⟩ : WinState), st77xx_stripe_begin_frame ⟨true, 7⟩) 0 =
      ((⟨false, fullWindow⟩ : WinState), (⟨true, 0⟩ : StripeState)) ∧
    (0 : Nat) < ST77XX_STRIPE_COUNT ∧
    ((⟨true, 0⟩ : StripeState).current = 0 ∧
      st77xx_stripe_flush_next true ⟨false, fullWindow⟩ ⟨true, 0⟩ =
        ((⟨(⟨false, fullWindow⟩ : WinState).windowSet, stripeBand 0⟩, ⟨true, 0 + 1⟩),
          (if 0 + 1 < ST77XX_STRIPE_COUNT then ((0 + 1 : Nat) : Int) else -1),
          [Ev.winSet (stripeBand 0), Ev.ramwr, Ev.data ST77XX_STRIPE_SIZE])) :=
  ⟨rfl, rfl, by decide,
    (stripe_frame_sequence ⟨false, fullWindow⟩ ⟨true, 7⟩ rfl 0 ⟨false, fullWindow⟩ ⟨true, 0⟩ rfl).2.1
      (by decide)⟩

/- ═══════════ Claim C4: the window cache ════ -/

theorem evHasWinSet_dmaEvents (d : Bool) (L : Nat) : evHasWinSet (dmaEvents d L) = false := by
  rw [evHasWinSet, dmaEvents]
  cases d
  · simp
  · rw [if_pos rfl, List.any_eq_false]
    intro e he
    rw [List.mem_map] at he
    obtain ⟨n, _, hn⟩ := he
    rw [← hn]
    simp

theorem norm_full :
    normWindow 0 0 (ST77XX_WIDTH - 1) (ST77XX_HEIGHT - 1) = fullWindow := by decide

/-- Claim C4 counterexample.  After `st77xx_flush` validates the cache, a
`st77xx_set_window` call for the (non-full) rectangle `(0,0,10,10)` leaves the
`window_set` boolean untouched (still `true`), so the next `st77xx_flush`
does not issue any addressing (no `winSet` event; only `CMD_RAMWR` plus the
data stream) even though the panel's addressed rectangle is not the full
panel — contradicting the claim that `set_window` marks the cache valid for
exactly the rectangle it addressed and that `flush` re-addresses whenever the
cache is not valid for the full panel. -/
theorem window_cache_counterexample :
    ((st77xx_set_window ((st77xx_flush true ⟨false, fullWindow⟩).1) 0 0 10 10).1.panelWindow
        ≠ fullWindow) ∧
    ((st77xx_set_window ((st77xx_flush true ⟨false, fullWindow⟩).1) 0 0 10 10).1.windowSet
        = true) ∧
    ((st77xx_flush true
        ((st77xx_set_window ((st77xx_flush true ⟨false, fullWindow⟩).1) 0 0 10 10).1)).2
      = Ev.ramwr :: dmaEvents true ST77XX_FB_SIZE) ∧
    (evHasWinSet ((st77xx_flush true
        ((st77xx_set_window ((st77xx_flush true ⟨false, fullWindow⟩).1) 0 0 10 10).1)).2)
      = false) := by
  refine ⟨by decide, rfl, rfl, ?_⟩
  have h2 : (st77xx_flush true
      ((st77xx_set_window ((st77xx_flush true ⟨false, fullWindow⟩).1) 0 0 10 10).1)).2
      = Ev.ramwr :: dmaEvents true ST77XX_FB_SIZE := rfl
  rw [h2, evHasWinSet]
  rw [List.any_cons]
  have h3 : evHasWinSet (dmaEvents true ST77XX_FB_SIZE) = false :=
    evHasWinSet_dmaEvents true ST77XX_FB_SIZE
  rw [evHasWinSet] at h3
  rw [h3]
  rfl

/-- Claim C4 (amended).  The window cache is the single boolean `window_set`
meaning "flush has addressed the full panel": `st77xx_set_window` leaves the
boolean unchanged (it does not mark the cache for the rectangle it
addressed); `st77xx_flush` issues the full-panel `set_window` precisely when
the boolean is false (then sets it), and otherwise only reissues the
begin-write `CMD_RAMWR` before streaming; any orientation change clears the
boolean. -/
theorem window_cache_boolean_contract (s : WinState) (x0 y0 x1 y1 : Nat) (dmaAlloc : Bool) :
    ((st77xx_set_window s x0 y0 x1 y1).1.windowSet = s.windowSet) ∧
    (s.windowSet = false →
      st77xx_flush dmaAlloc s =
        (⟨true, fullWindow⟩, Ev.winSet fullWindow :: dmaEvents dmaAlloc ST77XX_FB_SIZE)) ∧
    (s.windowSet = true →
      st77xx_flush dmaAlloc s = (s, Ev.ramwr :: dmaEvents dmaAlloc ST77XX_FB_SIZE)) ∧
    ((st77xx_set_orientation s).windowSet = false) := by
  refine ⟨rfl, ?_, ?_, rfl⟩
  · intro h
    rw [st77xx_flush, if_neg (by rw [h]; exact Bool.noConfusion)]
    simp only [st77xx_set_window, norm_full]
    rfl
  · intro h
    rw [st77xx_flush, if_pos h]

theorem window_cache_boolean_contract_witness :
    ((⟨true, fullWindow⟩ : WinState).windowSet = true) ∧
    st77xx_flush true ⟨true, fullWindow⟩ =
      ((⟨true, fullWindow⟩ : WinState), Ev.ramwr :: dmaEvents true ST77XX_FB_SIZE) :=
  ⟨rfl, (window_cache_boolean_contract ⟨true, fullWindow⟩ 0 0 0 0 true).2.2.1 rfl⟩

/- ═══════════ Claim C5: stripe configuration divisibility ════ -/

/-- Claim C5 counterexample.  In the compiled configuration the divisibility
invariant fails (`11 * 27 = 297 ≠ 320`), yet `st77xx_init_stripe_mode`
succeeds whenever the buffer allocation succeeds: setup does not catch the
misconfiguration, contradicting "setup never succeeds with stripe_count *
stripe_height != panel_height". -/
theorem stripe_divisibility_counterexample :
    ST77XX_STRIPE_COUNT * ST77XX_STRIPE_HEIGHT ≠ ST77XX_HEIGHT ∧
    (st77xx_init_stripe_mode true ⟨false, 0⟩).alloc = true :=
  ⟨by decide, rfl⟩

/-- Claim C5 (amended).  `ST77XX_STRIPE_COUNT` is the floor of
`panel_height / stripe_height` (11 for 320/27); `st77xx_init_stripe_mode`
performs no divisibility check: starting from an unallocated stripe state it
succeeds exactly when the buffer allocation succeeds, even though
`stripe_count * stripe_height` (297) differs from `panel_height` (320) by 23
silently-unaddressed rows (`320 % 27 = 23`). -/
theorem stripe_setup_no_divisibility_check (allocOk : Bool) (s : StripeState)
    (h : s.alloc = false) :
    ST77XX_STRIPE_COUNT = ST77XX_HEIGHT / ST77XX_STRIPE_HEIGHT ∧
    ST77XX_STRIPE_COUNT * ST77XX_STRIPE_HEIGHT + ST77XX_HEIGHT % ST77XX_STRIPE_HEIGHT
      = ST77XX_HEIGHT ∧
    ST77XX_HEIGHT % ST77XX_STRIPE_HEIGHT = 23 ∧
    (st77xx_init_stripe_mode allocOk s).alloc = allocOk := by
  refine ⟨rfl, by decide, by decide, ?_⟩
  rw [st77xx_init_stripe_mode, if_neg (by rw [h]; exact Bool.noConfusion)]
  cases allocOk
  · rw [if_neg Bool.noConfusion]
    exact h
  · rw [if_pos rfl]

theorem stripe_setup_no_divisibility_check_witness :
    ((⟨false, 4⟩ : StripeState).alloc = false) ∧
    (st77xx_init_stripe_mode true ⟨false, 4⟩).alloc = true :=
  ⟨rfl, (stripe_setup_no_divisibility_check true ⟨false, 4⟩ rfl).2.2.2⟩

/- ═══════════ Claim C9: double-buffer allocation atomicity ════ -/

/-- Double-buffer state: the `fb_front` / `fb_back` static pointers, each
either unset (`none`) or an allocated pixel surface (flat pixel index to
16-bit value). -/
structure DBState where
  front : Option (Nat → Nat)
  back : Option (Nat → Nat)

/-- The all-zero surface produced by `memset(fb, 0, ST77XX_FB_SIZE)`. -/
def zeroSurface : Nat → Nat := fun _ => 0

/-- `st77xx_init_double_buffers` (st77xx.c:335-356): a no-op when both
buffers already exist; otherwise allocates both surfaces (`aF`, `aB` are the
two allocator outcomes, carrying the uninitialized contents on success); if
either allocation failed (`!fb_front || !fb_back`), the other is freed and
both pointers are set back to `NULL`; on success both surfaces are zeroed by
`memset`. -/
def st77xx_init_double_buffers (aF aB : Option (Nat → Nat)) (s : DBState) : DBState :=
  if s.front.isSome && s.back.isSome then s
  else if aF.isSome && aB.isSome then ⟨some zeroSurface, some zeroSurface⟩
  else ⟨none, none⟩

/-- Claim C9.  Double-buffer allocation atomicity: starting from the unset
state, if either allocation fails the other is rolled back and both handles
are left `none`; if both succeed, both surfaces are allocated and
zero-initialized; in every case the two handles are both set or both unset. -/
theorem double_buffer_atomicity (aF aB : Option (Nat → Nat)) (s : DBState)
    (hf : s.front = none) (hb : s.back = none) :
    ((aF = none ∨ aB = none) → st77xx_init_double_buffers aF aB s = ⟨none, none⟩) ∧
    (∀ gF gB, aF = some gF → aB = some gB →
      st77xx_init_double_buffers aF aB s = ⟨some zeroSurface, some zeroSurface⟩) ∧
    ((st77xx_init_double_buffers aF aB s).front.isSome ↔
      (st77xx_init_double_buffers aF aB s).back.isSome) := by
  have hcond : (s.front.isSome && s.back.isSome) = false := by
    rw [hf, hb]
    rfl
  have hinit : st77xx_init_double_buffers aF aB s =
      if aF.isSome && aB.isSome then ⟨some zeroSurface, some zeroSurface⟩
      else (⟨none, none⟩ : DBState) := by
    rw [st77xx_init_double_buffers, hcond]
    rfl
  refine ⟨?_, ?_, ?_⟩
  · rintro (h | h) <;> subst h <;> rw [hinit] <;> simp
  · intro gF gB hF hB
    subst hF
    subst hB
    rw [hinit]
    rfl
  · rw [hinit]
    by_cases hc : (aF.isSome && aB.isSome) = true
    · rw [if_pos hc]
    · rw [if_neg (by simp [hc])]

theorem double_buffer_atomicity_witness :
    ((⟨none, none⟩ : DBState).front = none) ∧
    ((⟨none, none⟩ : DBState).back = none) ∧
    st77xx_init_double_buffers none (some zeroSurface) ⟨none, none⟩ = ⟨none, none⟩ :=
  ⟨rfl, rfl,
    (double_buffer_atomicity none (some zeroSurface) ⟨none, none⟩ rfl rfl).1 (Or.inl rfl)⟩

/- ═══════════ Claim C6: `st77xx_fill_rect` (st77xx.c:525-559) ════ -/

/-- The clipping steps at the top of `st77xx_fill_rect`, on C `int32_t`
coordinates (arithmetic is exact for the in-range inputs considered here):
early-out when the rectangle is fully outside, then shift a negative origin
and clamp the extent to the panel bounds.  Note the source has NO
`w <= 0 || h <= 0` rejection after clipping (its sibling
`st77xx_stripe_fill_rect` does). -/
def clipRect (x y w h : Int) : Option (Int × Int × Int × Int) :=
  if (ST77XX_WIDTH : Int) ≤ x ∨ (ST77XX_HEIGHT : Int) ≤ y ∨ x + w ≤ 0 ∨ y + h ≤ 0 then
    none
  else
    let x1 := if x < 0 then 0 else x
    let w1 := if x < 0 then w + x else w
    let y1 := if y < 0 then 0 else y
    let h1 := if y < 0 then h + y else h
    let w2 := if (ST77XX_WIDTH : Int) < x1 + w1 then (ST77XX_WIDTH : Int) - x1 else w1
    let h2 := if (ST77XX_HEIGHT : Int) < y1 + h1 then (ST77XX_HEIGHT : Int) - y1 else h1
    some (x1, y1, w2, h2)

/-- The flat `uint16_t` indices written by `st77xx_fill_rect` after clipping.
Full-width rectangles (`x == 0 && w == ST77XX_WIDTH`) take the bulk path,
which computes `size_t pixels = (size_t)w * h;` — `size_t` is 32 bits on the
ESP32 target, so the value is the product modulo `2^32` (a negative `h`
wraps to a huge count) — and writes `pixels` consecutive cells starting at
flat index `y * ST77XX_WIDTH`; other rectangles write per row and column
(loops that run zero times for non-positive `w`/`h`). -/
def fillRectWriteList (x y w h : Int) : List Nat :=
  match clipRect x y w h with
  | none => []
  | some (cx, cy, cw, ch) =>
    if cx = 0 ∧ cw = (ST77XX_WIDTH : Int) then
      let pixels : Nat := ((cw * ch) % (2 ^ 32)).toNat
      (List.range pixels).map (fun i => (cy * (ST77XX_WIDTH : Int)).toNat + i)
    else
      ((List.range ch.toNat).map (fun row =>
        (List.range cw.toNat).map (fun col =>
          ((cy + row) * (ST77XX_WIDTH : Int) + cx + col).toNat))).flatten

/-- Claim C6 (code-bug evaluation).  The claim says a degenerate post-clip
size (zero or negative) is a no-op and no pixel outside the clipped
intersection changes.  But on the failing input
`st77xx_fill_rect(fb, 0, 10, 480, -5, color)` the full-width bulk path is
taken with a negative height: `(size_t)w * h` wraps modulo `2^32` to
4294964896, and the code writes that many consecutive cells — in particular
flat index `ST77XX_WIDTH * ST77XX_HEIGHT` (= 153600), which is past the last
valid pixel of the surface (valid flat indices are `< 153600`): an
out-of-bounds heap write, not a no-op. -/
theorem fill_rect_negative_height_overflow :
    fillRectWriteList 0 10 (ST77XX_WIDTH : Int) (-5) ≠ [] ∧
    (ST77XX_WIDTH * ST77XX_HEIGHT) ∈ fillRectWriteList 0 10 (ST77XX_WIDTH : Int) (-5) := by
  have hclip : clipRect 0 10 (ST77XX_WIDTH : Int) (-5) =
      some (0, 10, (ST77XX_WIDTH : Int), -5) := by decide
  have hform : fillRectWriteList 0 10 (ST77XX_WIDTH : Int) (-5) =
      (List.range ((((ST77XX_WIDTH : Int) * (-5)) % (2 ^ 32)).toNat)).map
        (fun i => ((10 : Int) * (ST77XX_WIDTH : Int)).toNat + i) := by
    rw [fillRectWriteList, hclip]
    rfl
  have hm : (ST77XX_WIDTH * ST77XX_HEIGHT) ∈ fillRectWriteList 0 10 (ST77XX_WIDTH : Int) (-5) := by
    rw [hform]
    simp only [List.mem_map, List.mem_range]
    exact ⟨148800, by decide, by decide⟩
  exact ⟨List.ne_nil_of_mem hm, hm⟩

/- ═══════════ Claim C7: `st77xx_preload_frames` (st77xx.c:624-678) ════ -/

/-- Whether loading frame file `i` (`"{dir}/{i}.bin"`) fully succeeds:
the file opens (`fs i = some contents`), the frame buffer allocates
(`allocOk i`), and `fread` returns a full `ST77XX_FB_SIZE` bytes (the file
holds at least that many). -/
def frameGood (fs : Nat → Option (List Nat)) (allocOk : Nat → Bool) (i : Nat) : Bool :=
  match fs i with
  | none => false
  | some c => allocOk i && decide (ST77XX_FB_SIZE ≤ c.length)

/-- The loading loop of `st77xx_preload_frames` starting at file index `i`
with `r` iterations left: stop at the first open failure, allocation failure
or short read (`fread` result `!= ST77XX_FB_SIZE`, discarding that buffer),
otherwise store the frame's `ST77XX_FB_SIZE` bytes and continue. -/
def preloadGo (fs : Nat → Option (List Nat)) (allocOk : Nat → Bool) :
    Nat → Nat → List (List Nat)
  | _, 0 => []
  | i, r + 1 =>
    match fs i with
    | none => []
    | some content =>
      if allocOk i = false then []
      else if content.length < ST77XX_FB_SIZE then []
      else content.take ST77XX_FB_SIZE :: preloadGo fs allocOk (i + 1) r

/-- `st77xx_preload_frames(base_dir, max_preload)`: for `max_preload <= 0`
return 0 leaving the previous set untouched; otherwise the previous set is
released first, the frame array is allocated (`arrayOk`; on failure return 0
with a null array), files `1.bin, 2.bin, ...` are loaded in order, and if
nothing loaded the array is freed again (null).  Returns the loaded count and
the new frame set. -/
def st77xx_preload_frames (fs : Nat → Option (List Nat)) (allocOk : Nat → Bool)
    (arrayOk : Bool) (prev : Option (List (List Nat))) (max_preload : Int) :
    Nat × Option (List (List Nat)) :=
  if max_preload ≤ 0 then (0, prev)
  else if arrayOk = false then (0, none)
  else
    let fr := preloadGo fs allocOk 1 max_preload.toNat
    if fr.length = 0 then (0, none) else (fr.length, some fr)

theorem preloadGo_zero (fs : Nat → Option (List Nat)) (ao : Nat → Bool) (i : Nat) :
    preloadGo fs ao i 0 = [] := by
  rw [preloadGo]

theorem preloadGo_none (fs : Nat → Option (List Nat)) (ao : Nat → Bool) (i r : Nat)
    (hfs : fs i = none) : preloadGo fs ao i (r + 1) = [] := by
  rw [preloadGo, hfs]

theorem preloadGo_step (fs : Nat → Option (List Nat)) (ao : Nat → Bool) (i r : Nat)
    (c : List Nat) (hfs : fs i = some c) :
    preloadGo fs ao i (r + 1) =
      if ao i = false then []
      else if c.length < ST77XX_FB_SIZE then []
      else c.take ST77XX_FB_SIZE :: preloadGo fs ao (i + 1) r := by
  rw [preloadGo, hfs]

theorem preloadGo_skip (fs : Nat → Option (List Nat)) (ao : Nat → Bool) (i r : Nat)
    (c : List Nat) (hfs : fs i = some c)
    (h : ao i = false ∨ c.length < ST77XX_FB_SIZE) : preloadGo fs ao i (r + 1) = [] := by
  rw [preloadGo_step fs ao i r c hfs]
  by_cases ha : ao i = false
  · rw [if_pos ha]
  · rcases h with h | h
    · exact absurd h ha
    · rw [if_neg ha, if_pos h]

theorem preloadGo_cons (fs : Nat → Option (List Nat)) (ao : Nat → Bool) (i r : Nat)
    (c : List Nat) (hfs : fs i = some c) (ha : ¬ ao i = false)
    (hl : ¬ c.length < ST77XX_FB_SIZE) :
    preloadGo fs ao i (r + 1) = c.take ST77XX_FB_SIZE :: preloadGo fs ao (i + 1) r := by
  rw [preloadGo_step fs ao i r c hfs, if_neg ha, if_neg hl]

theorem preloadGo_length_le (fs : Nat → Option (List Nat)) (ao : Nat → Bool) :
    ∀ (r i : Nat), (preloadGo fs ao i r).length ≤ r := by
  intro r
  induction r with
  | zero =>
    intro i
    rw [preloadGo_zero]
    exact Nat.le_refl 0
  | succ r ih =>
    intro i
    cases hfs : fs i with
    | none =>
      rw [preloadGo_none fs ao i r hfs]
      simp
    | some c =>
      by_cases ha : ao i = false
      · rw [preloadGo_skip fs ao i r c hfs (Or.inl ha)]; simp
      · by_cases hl : c.length < ST77XX_FB_SIZE
        · rw [preloadGo_skip fs ao i r c hfs (Or.inr hl)]; simp
        · rw [preloadGo_cons fs ao i r c hfs ha hl]
          simp only [List.length_cons]
          exact Nat.succ_le_succ (ih (i + 1))

theorem preloadGo_spec (fs : Nat → Option (List Nat)) (ao : Nat → Bool) :
    ∀ (r i j : Nat), j < (preloadGo fs ao i r).length →
      frameGood fs ao (i + j) = true ∧
      (preloadGo fs ao i r).getD j [] = ((fs (i + j)).getD []).take ST77XX_FB_SIZE := by
  intro r
  induction r with
  | zero =>
    intro i j hj
    rw [preloadGo_zero] at hj
    simp at hj
  | succ r ih =>
    intro i j hj
    cases hfs : fs i with
    | none =>
      rw [preloadGo_none fs ao i r hfs] at hj
      simp at hj
    | some c =>
      by_cases ha : ao i = false
      · rw [preloadGo_skip fs ao i r c hfs (Or.inl ha)] at hj; simp at hj
      · by_cases hl : c.length < ST77XX_FB_SIZE
        · rw [preloadGo_skip fs ao i r c hfs (Or.inr hl)] at hj; simp at hj
        · rw [preloadGo_cons fs ao i r c hfs ha hl] at hj ⊢
          cases j with
          | zero =>
            constructor
            · rw [Nat.add_zero, frameGood, hfs]
              rw [Bool.not_eq_false] at ha
              rw [ha]
              simp only [Bool.true_and, decide_eq_true_eq]
              omega
            · simp only [Nat.add_zero, hfs, List.getD_cons_zero, Option.getD_some]
          | succ j =>
            simp only [List.length_cons, Nat.succ_lt_succ_iff] at hj
            have := ih (i + 1) j hj
            rw [show i + (j + 1) = (i + 1) + j by omega]
            exact ⟨this.1, by rw [List.getD_cons_succ]; exact this.2⟩

theorem preloadGo_stop (fs : Nat → Option (List Nat)) (ao : Nat → Bool) :
    ∀ (r i : Nat), (preloadGo fs ao i r).length < r →
      frameGood fs ao (i + (preloadGo fs ao i r).length) = false := by
  intro r
  induction r with
  | zero =>
    intro i h
    exact absurd h (Nat.not_lt_zero _)
  | succ r ih =>
    intro i h
    cases hfs : fs i with
    | none =>
      rw [preloadGo_none fs ao i r hfs]
      simp only [List.length_nil, Nat.add_zero]
      rw [frameGood, hfs]
    | some c =>
      by_cases ha : ao i = false
      · rw [preloadGo_skip fs ao i r c hfs (Or.inl ha)]
        simp only [List.length_nil, Nat.add_zero]
        rw [frameGood, hfs, ha]
        rfl
      · by_cases hl : c.length < ST77XX_FB_SIZE
        · rw [preloadGo_skip fs ao i r c hfs (Or.inr hl)]
          simp only [List.length_nil, Nat.add_zero]
          rw [frameGood, hfs]
          simp only [Bool.and_eq_false_iff, decide_eq_false_iff_not]
          right
          omega
        · rw [preloadGo_cons fs ao i r c hfs ha hl] at h ⊢
          simp only [List.length_cons] at h ⊢
          have hlt : (preloadGo fs ao (i + 1) r).length < r := by omega
          have := ih (i + 1) hlt
          rw [show i + ((preloadGo fs ao (i + 1) r).length + 1)
              = (i + 1) + (preloadGo fs ao (i + 1) r).length by omega]
          exact this

/-- The full contract of Claim C7 for `st77xx_preload_frames` with a
successfully allocated frame array, at the result
`(k, frames) := st77xx_preload_frames fs allocOk true prev N`:
the count never exceeds `N`; an array-allocation failure returns `(0, none)`;
the result is independent of the previously loaded set (which is released
first); `k = 0` leaves the frame array `none`; `0 < k` yields exactly the
loaded frames; frame `j < k` is the first `ST77XX_FB_SIZE` bytes of file
`j+1`, all of files `1..k` fully loading (a short read keeps all earlier
frames); and if the loop stopped before `N`, file `k+1` is the first failure. -/
def preloadContract (fs : Nat → Option (List Nat)) (allocOk : Nat → Bool)
    (prev : Option (List (List Nat))) (N : Int) : Prop :=
  ((st77xx_preload_frames fs allocOk true prev N).1 : Int) ≤ N ∧
  st77xx_preload_frames fs allocOk false prev N = (0, none) ∧
  st77xx_preload_frames fs allocOk true prev N = st77xx_preload_frames fs allocOk true none N ∧
  ((st77xx_preload_frames fs allocOk true prev N).1 = 0 →
    (st77xx_preload_frames fs allocOk true prev N).2 = none) ∧
  (0 < (st77xx_preload_frames fs allocOk true prev N).1 →
    (st77xx_preload_frames fs allocOk true prev N).2 = some (preloadGo fs allocOk 1 N.toNat)) ∧
  (∀ j < (st77xx_preload_frames fs allocOk true prev N).1,
    frameGood fs allocOk (1 + j) = true ∧
    (preloadGo fs allocOk 1 N.toNat).getD j [] = ((fs (1 + j)).getD []).take ST77XX_FB_SIZE) ∧
  ((st77xx_preload_frames fs allocOk true prev N).1 < N.toNat →
    frameGood fs allocOk (1 + (st77xx_preload_frames fs allocOk true prev N).1) = false)

/-- Claim C7.  The preloader contract (see `preloadContract`) holds for every
`N > 0`, every filesystem, and every allocator outcome. -/
theorem st77xx_preload_frames_contract (fs : Nat → Option (List Nat)) (allocOk : Nat → Bool)
    (prev : Option (List (List Nat))) (N : Int) (hN : 0 < N) :
    preloadContract fs allocOk prev N := by
  have hn0 : ¬ N ≤ 0 := by omega
  have hmain : ∀ p, st77xx_preload_frames fs allocOk true p N =
      if (preloadGo fs allocOk 1 N.toNat).length = 0 then (0, none)
      else ((preloadGo fs allocOk 1 N.toNat).length, some (preloadGo fs allocOk 1 N.toNat)) := by
    intro p
    rw [st77xx_preload_frames, if_neg hn0, if_neg (by simp)]
  have hlen : (preloadGo fs allocOk 1 N.toNat).length ≤ N.toNat :=
    preloadGo_length_le fs allocOk N.toNat 1
  rw [preloadContract]
  by_cases hk : (preloadGo fs allocOk 1 N.toNat).length = 0
  · have hres : ∀ p, st77xx_preload_frames fs allocOk true p N = (0, none) := by
      intro p
      rw [hmain p, if_pos hk]
    refine ⟨?_, ?_, ?_, ?_, ?_, ?_, ?_⟩
    · rw [hres prev]; omega
    · rw [st77xx_preload_frames, if_neg hn0, if_pos rfl]
    · rw [hres prev, hres none]
    · intro _; rw [hres prev]
    · intro h; rw [hres prev] at h; simp at h
    · intro j hj; rw [hres prev] at hj; simp at hj
    · intro hlt
      rw [hres prev] at hlt ⊢
      have := preloadGo_stop fs allocOk N.toNat 1 (by omega)
      rw [hk] at this
      exact this
  · have hres : ∀ p, st77xx_preload_frames fs allocOk true p N =
        ((preloadGo fs allocOk 1 N.toNat).length, some (preloadGo fs allocOk 1 N.toNat)) := by
      intro p
      rw [hmain p, if_neg hk]
    refine ⟨?_, ?_, ?_, ?_, ?_, ?_, ?_⟩
    · rw [hres prev]
      have : ((N.toNat : Int)) = N := Int.toNat_of_nonneg (by omega)
      simp only []
      omega
    · rw [st77xx_preload_frames, if_neg hn0, if_pos rfl]
    · rw [hres prev, hres none]
    · intro h; rw [hres prev] at h; exact absurd h hk
    · intro _; rw [hres prev]
    · intro j hj
      rw [hres prev] at hj
      exact preloadGo_spec fs allocOk N.toNat 1 j hj
    · intro hlt
      rw [hres prev] at hlt ⊢
      exact preloadGo_stop fs allocOk N.toNat 1 hlt

theorem st77xx_preload_frames_contract_witness :
    (0 : Int) < 3 ∧ preloadContract (fun _ => none) (fun _ => true) none 3 :=
  ⟨by decide,
    st77xx_preload_frames_contract (fun _ => none) (fun _ => true) none 3 (by decide)⟩

/- ═══════════ Text rasterizer: UTF-8 and the glyph table (st77xx.c:64-74,
   591-614, 846-897) ════ -/

/-- The `font_char_map` table (st77xx.c:64-74): Unicode codepoint per glyph
index, 108 entries. -/
def fontCharMap : List Nat :=
  [32, 33, 34, 35, 36, 37, 38, 39, 40, 41, 42, 43, 44, 45, 46, 47,
   48, 49, 50, 51, 52, 53, 54, 55, 56, 57, 58, 59, 60, 61, 62, 63,
   64, 65, 66, 67, 68, 69, 70, 71, 72, 73, 74, 75, 76, 77, 78, 79,
   80, 81, 82, 83, 84, 85, 86, 87, 88, 89, 90, 91, 92, 93, 94, 95,
   96, 97, 98, 99, 100, 101, 102, 103, 104, 105, 106, 107, 108, 109, 110, 111,
   112, 113, 114, 115, 116, 117, 118, 119, 120, 121, 122, 123, 124, 125, 126, 127,
   161, 191, 209, 225, 233, 237, 241, 243, 250, 252, 26376, 20320]

/-- The linear scan of `find_char_index` (st77xx.c:849-854), carrying the
running index `i`. -/
def findCharIndexAux (code : Nat) : List Nat → Nat → Option Nat
  | [], _ => none
  | c :: rest, i => if c = code then some i else findCharIndexAux code rest (i + 1)

/-- `find_char_index(code)`: the first glyph index whose table entry equals
`code`; the C `-1` sentinel is modelled as `none`. -/
def find_char_index (code : Nat) : Option Nat :=
  findCharIndexAux code fontCharMap 0

/-- `utf8_next_codepoint` (st77xx.c:856-877) on a byte list: returns the
decoded codepoint and the remaining input (the C advances the pointer by
1, 2, 3 or 4 depending on the leading byte; any other leading byte advances
by 1 and leaves `cp = 0`).  Continuation bytes read past the end of the list
(the C would read past the NUL terminator there) are modelled as 0. -/
def utf8_next_codepoint (s : List Nat) : Nat × List Nat :=
  match s with
  | [] => (0, [])
  | b :: _ =>
    if b = 0 then (0, s)
    else if b < 0x80 then (b, s.drop 1)
    else if b &&& 0xE0 = 0xC0 then
      (((b &&& 0x1F) <<< 6) ||| (s.getD 1 0 &&& 0x3F), s.drop 2)
    else if b &&& 0xF0 = 0xE0 then
      (((b &&& 0x0F) <<< 12) ||| ((s.getD 1 0 &&& 0x3F) <<< 6) ||| (s.getD 2 0 &&& 0x3F),
        s.drop 3)
    else if b &&& 0xF8 = 0xF0 then
      (((b &&& 0x07) <<< 18) ||| ((s.getD 1 0 &&& 0x3F) <<< 12) |||
          ((s.getD 2 0 &&& 0x3F) <<< 6) ||| (s.getD 3 0 &&& 0x3F),
        s.drop 4)
    else (0, s.drop 1)

theorem utf8_next_progress : ∀ (s : List Nat), s ≠ [] → s.headD 0 ≠ 0 →
    (utf8_next_codepoint s).2.length < s.length := by
  intro s hs hb
  cases s with
  | nil => exact absurd rfl hs
  | cons b t =>
    simp only [List.headD_cons] at hb
    rw [utf8_next_codepoint]
    split_ifs with h1 h2 h3 h4 h5
    · exact absurd h1 hb
    · simp
    · simp only [List.drop_succ_cons, List.length_cons, List.length_drop]
      omega
    · simp only [List.drop_succ_cons, List.length_cons, List.length_drop]
      omega
    · simp only [List.drop_succ_cons, List.length_cons, List.length_drop]
      omega
    · simp

/-- The `while (*p)` loop of `st77xx_draw_text_unicode` (st77xx.c:591-614),
abstracted to the sequence of glyph indices it draws (for non-null `fb`,
`text` and `font`): stop at end of input or when the decoder returns
codepoint 0; a newline (codepoint 10) draws nothing and continues; otherwise
`find_char_index` is consulted and, when it finds an index (`idx >= 0`),
`draw_glyph` is invoked with it.  The cursor arithmetic does not influence
which glyphs are drawn and is not modelled.  This definition terminates by
well-founded recursion on the input length, which is exactly the
forward-progress property of the decoder. -/
def st77xx_draw_text_unicode : List Nat → List Nat
  | [] => []
  | b :: t =>
    if b = 0 then []
    else
      let p := utf8_next_codepoint (b :: t)
      if p.1 = 0 then []
      else if p.1 = 10 then st77xx_draw_text_unicode p.2
      else
        (find_char_index p.1).elim (st77xx_draw_text_unicode p.2)
          (fun idx => idx :: st77xx_draw_text_unicode p.2)
termination_by s => s.length
decreasing_by
  all_goals
    apply utf8_next_progress
    · exact List.cons_ne_nil _ _
    · simp only [List.headD_cons]
      assumption

theorem draw_text_single_A : st77xx_draw_text_unicode [65] = [33] := by
  have h1 : utf8_next_codepoint [65] = (65, []) := by decide
  have h2 : find_char_index 65 = some 33 := by decide
  rw [st77xx_draw_text_unicode]
  rw [if_neg (by norm_num)]
  simp only [h1, h2]
  rw [if_neg (by norm_num), if_neg (by norm_num), Option.elim_some]
  rw [st77xx_draw_text_unicode]

theorem draw_text_length_le : ∀ (s : List Nat),
    (st77xx_draw_text_unicode s).length ≤ s.length := by
  have H : ∀ (n : Nat) (s : List Nat), s.length ≤ n →
      (st77xx_draw_text_unicode s).length ≤ s.length := by
    intro n
    induction n with
    | zero =>
      intro s hs
      have hnil : s = [] := by
        cases s with
        | nil => rfl
        | cons a t => simp at hs
      subst hnil
      rw [st77xx_draw_text_unicode]
    | succ n ih =>
      intro s hs
      cases s with
      | nil =>
        rw [st77xx_draw_text_unicode]
      | cons b t =>
        rw [st77xx_draw_text_unicode]
        by_cases hb : b = 0
        · rw [if_pos hb]; simp
        · rw [if_neg hb]
          have hprog : (utf8_next_codepoint (b :: t)).2.length < (b :: t).length :=
            utf8_next_progress (b :: t) (List.cons_ne_nil _ _)
              (by simpa using hb)
          simp only [List.length_cons] at hprog hs ⊢
          have hrec : (st77xx_draw_text_unicode (utf8_next_codepoint (b :: t)).2).length
              ≤ (utf8_next_codepoint (b :: t)).2.length :=
            ih _ (by omega)
          by_cases h0 : (utf8_next_codepoint (b :: t)).1 = 0
          · rw [if_pos h0]; simp
          · rw [if_neg h0]
            by_cases h10 : (utf8_next_codepoint (b :: t)).1 = 10
            · rw [if_pos h10]
              omega
            · rw [if_neg h10]
              cases hf : find_char_index (utf8_next_codepoint (b :: t)).1 with
              | none =>
                rw [Option.elim_none]
                omega
              | some idx =>
                rw [Option.elim_some]
                simp only [List.length_cons]
                omega
  exact fun s => H s.length s (Nat.le_refl _)

/-- Claim C8 counterexample.  On the input bytes `[0xFF, 0x41]` (a malformed
leading byte followed by `'A'`): the decoder does advance past the malformed
byte by exactly one position, but it returns codepoint 0, which the text
loop treats as end of string — so drawing stops and the following, perfectly
valid `'A'` (which has glyph 33 and would be drawn from input `[0x41]`
alone) is never drawn.  "Decoding then proceeds with the following byte" is
false at the `draw_text` level. -/
theorem utf8_malformed_stops_drawing :
    utf8_next_codepoint [0xFF, 0x41] = (0, [0x41]) ∧
    find_char_index 0x41 = some 33 ∧
    st77xx_draw_text_unicode [0x41] = [33] ∧
    st77xx_draw_text_unicode [0xFF, 0x41] = [] := by
  refine ⟨by decide, by decide, draw_text_single_A, ?_⟩
  have h1 : utf8_next_codepoint [0xFF, 0x41] = (0, [0x41]) := by decide
  rw [st77xx_draw_text_unicode]
  rw [if_neg (by norm_num)]
  simp only [h1]
  simp

/-- Claim C8 (amended).  Every malformed leading byte (neither ASCII nor a
valid 2/3/4-byte sequence leader) is consumed as a single-byte advance of
the input by `utf8_next_codepoint`, which however reports codepoint 0, so
the text loop stops at the malformed byte (it does not continue decoding
with the following byte); `draw_text` still terminates on every
NUL-terminated input: every decode step on a nonempty input that does not
start with NUL consumes at least one byte (forward progress, which is the
termination measure of `st77xx_draw_text_unicode`), and at most one glyph is
drawn per input byte. -/
theorem utf8_malformed_single_byte_advance (b : Nat) (t : List Nat) (hb : b < 256)
    (h1 : ¬ b < 0x80) (h2 : ¬ (b &&& 0xE0 = 0xC0)) (h3 : ¬ (b &&& 0xF0 = 0xE0))
    (h4 : ¬ (b &&& 0xF8 = 0xF0)) :
    utf8_next_codepoint (b :: t) = (0, t) ∧
    st77xx_draw_text_unicode (b :: t) = [] ∧
    (∀ s : List Nat, s ≠ [] → s.headD 0 ≠ 0 →
      (utf8_next_codepoint s).2.length < s.length) ∧
    (∀ s : List Nat, (st77xx_draw_text_unicode s).length ≤ s.length) := by
  have hb0 : b ≠ 0 := by omega
  have hnext : utf8_next_codepoint (b :: t) = (0, t) := by
    rw [utf8_next_codepoint]
    rw [if_neg hb0, if_neg h1, if_neg h2, if_neg h3, if_neg h4]
    rfl
  refine ⟨hnext, ?_, utf8_next_progress, draw_text_length_le⟩
  rw [st77xx_draw_text_unicode, if_neg hb0]
  simp only [hnext]
  simp

theorem utf8_malformed_single_byte_advance_witness :
    (0xFF : Nat) < 256 ∧ ¬ (0xFF : Nat) < 0x80 ∧ ¬ ((0xFF : Nat) &&& 0xE0 = 0xC0) ∧
    ¬ ((0xFF : Nat) &&& 0xF0 = 0xE0) ∧ ¬ ((0xFF : Nat) &&& 0xF8 = 0xF0) ∧
    utf8_next_codepoint [0xFF, 65] = (0, [65]) ∧
    st77xx_draw_text_unicode [0xFF, 65] = [] :=
  ⟨by decide, by decide, by decide, by decide, by decide,
    (utf8_malformed_single_byte_advance 0xFF [65] (by decide) (by decide) (by decide)
      (by decide) (by decide)).1,
    (utf8_malformed_single_byte_advance 0xFF [65] (by decide) (by decide) (by decide)
      (by decide) (by decide)).2.1⟩

/- ═══════════ Claim C10: glyph-table bounds safety ════ -/

/-- The byte offsets of the font buffer that `draw_glyph` (st77xx.c:879-897)
reads: with a null font or an index outside `[0, ST77XX_FONT_CHARS)` it
returns immediately (no read); otherwise `glyph = &font[index *
ST77XX_FONT_HEIGHT]` and one byte `glyph[row]` is read per row. -/
def drawGlyphReads (fontNull : Bool) (index : Int) : List Nat :=
  if fontNull = true ∨ index < 0 ∨ (ST77XX_FONT_CHARS : Int) ≤ index then []
  else (List.range ST77XX_FONT_HEIGHT).map
    (fun row => index.toNat * ST77XX_FONT_HEIGHT + row)

/-- All font-buffer byte offsets read while drawing a whole text: one
`draw_glyph` invocation per glyph index the text loop draws (the loop calls
`draw_glyph` only when `find_char_index` returned a non-negative index). -/
def drawTextFontReads (fontNull : Bool) (s : List Nat) : List Nat :=
  ((st77xx_draw_text_unicode s).map (fun idx => drawGlyphReads fontNull (idx : Int))).flatten

theorem findCharIndexAux_lt (code : Nat) : ∀ (l : List Nat) (i j : Nat),
    findCharIndexAux code l i = some j → j < i + l.length := by
  intro l
  induction l with
  | nil =>
    intro i j h
    rw [findCharIndexAux] at h
    exact absurd h (by simp)
  | cons c rest ih =>
    intro i j h
    rw [findCharIndexAux] at h
    by_cases hc : c = code
    · rw [if_pos hc] at h
      simp only [Option.some.injEq] at h
      subst h
      simp only [List.length_cons]
      omega
    · rw [if_neg hc] at h
      have := ih (i + 1) j h
      simp only [List.length_cons]
      omega

theorem drawGlyphReads_lt (fontNull : Bool) (idx : Int) (o : Nat)
    (ho : o ∈ drawGlyphReads fontNull idx) :
    o < ST77XX_FONT_CHARS * ST77XX_FONT_HEIGHT := by
  rw [drawGlyphReads] at ho
  by_cases hg : fontNull = true ∨ idx < 0 ∨ (ST77XX_FONT_CHARS : Int) ≤ idx
  · rw [if_pos hg] at ho
    simp at ho
  · rw [if_neg hg] at ho
    push_neg at hg
    obtain ⟨-, hge, hlt⟩ := hg
    simp only [List.mem_map, List.mem_range] at ho
    obtain ⟨row, hrow, hrw⟩ := ho
    rw [← hrw]
    have hCI : ((ST77XX_FONT_CHARS : Nat) : Int) = 108 := rfl
    rw [hCI] at hlt
    have hH : ST77XX_FONT_HEIGHT = 12 := rfl
    have hC : ST77XX_FONT_CHARS = 108 := rfl
    rw [hH, hC]
    rw [hH] at hrow
    omega

/-- Claim C10.  Glyph-table bounds safety: the codepoint-to-glyph table has
exactly `ST77XX_FONT_CHARS` (108) entries, so every index
`find_char_index` returns is a valid glyph index (`< 108`); `draw_glyph`
rejects indices outside `[0, ST77XX_FONT_CHARS)` and a null font (reading
nothing); consequently every font-buffer read performed while drawing any
text lies below `ST77XX_FONT_CHARS * ST77XX_FONT_HEIGHT` bytes. -/
theorem glyph_table_bounds :
    fontCharMap.length = ST77XX_FONT_CHARS ∧
    (∀ cp i, find_char_index cp = some i → i < ST77XX_FONT_CHARS) ∧
    (∀ fontNull idx o, o ∈ drawGlyphReads fontNull idx →
      o < ST77XX_FONT_CHARS * ST77XX_FONT_HEIGHT) ∧
    (∀ idx, drawGlyphReads true idx = []) ∧
    (∀ s o, o ∈ drawTextFontReads false s → o < ST77XX_FONT_CHARS * ST77XX_FONT_HEIGHT) := by
  refine ⟨by decide, ?_, drawGlyphReads_lt, ?_, ?_⟩
  · intro cp i h
    have := findCharIndexAux_lt cp fontCharMap 0 i h
    have hlen : fontCharMap.length = 108 := by decide
    rw [hlen] at this
    have hC : ST77XX_FONT_CHARS = 108 := rfl
    omega
  · intro idx
    rw [drawGlyphReads, if_pos (Or.inl rfl)]
  · intro s o ho
    rw [drawTextFontReads] at ho
    rw [List.mem_flatten] at ho
    obtain ⟨l, hl, hol⟩ := ho
    rw [List.mem_map] at hl
    obtain ⟨idx, -, hidx⟩ := hl
    rw [← hidx] at hol
    exact drawGlyphReads_lt false (idx : Int) o hol

theorem glyph_table_bounds_witness :
    (find_char_index 65 = some 33 ∧ 33 < ST77XX_FONT_CHARS) ∧
    (396 ∈ drawTextFontReads false [65] ∧
      396 < ST77XX_FONT_CHARS * ST77XX_FONT_HEIGHT) := by
  have hmem : 396 ∈ drawTextFontReads false [65] := by
    rw [drawTextFontReads, draw_text_single_A]
    simp only [List.map_cons, List.map_nil, List.flatten]
    have hg : drawGlyphReads false ((33 : Nat) : Int) =
        [396, 397, 398, 399, 400, 401, 402, 403, 404, 405, 406, 407] := by decide
    rw [hg]
    simp
  exact ⟨⟨by decide, glyph_table_bounds.2.1 65 33 (by decide)⟩,
    ⟨hmem, glyph_table_bounds.2.2.2.2 [65] 396 hmem⟩⟩
